import Mathlib

/-!
Shallow embedding of the per-partition lifecycle manager of a Kafka
consumer-group client (Go package kafkaconsumer, file partition_manager).

The Go code drives one partition through: claiming the partition in
Zookeeper, starting a partition offset manager, resolving the starting
offset, starting a partition consumer, a steady-state consume/forward
loop, and a drain-aware shutdown implemented with deferred cleanup calls.

External collaborators (Zookeeper reads, the sarama offset manager and
consumer, the tomb dying signal) are modelled as explicit oracle inputs:
each retry loop consumes a list describing the outcome of each attempt,
and each select over the dying channel is a boolean on that attempt.
-/

namespace KafkaConsumer

/-- Error values a partition-manager routine can produce: tomb.ErrDying
(the distinguished "interrupted" outcome), the fatal invariant-violation
error from claimPartition when this instance already owns the partition,
and arbitrary other errors (as returned by the external clients). -/
inductive PMError
  | errDying
  | ownAlreadyOwner
  | other (code : Nat)
deriving DecidableEq, Repr

/-- sarama.OffsetNewest: sentinel offset requesting only new messages. -/
def OffsetNewest : Int := -1

/-- sarama.OffsetOldest: sentinel offset requesting the oldest available offset. -/
def OffsetOldest : Int := -2

/-- Offset resolution in run (lines 49-55): read the committed offset from
the offset manager; a negative value is the "no committed offset" sentinel
and selects the configured initial offset policy; otherwise start one past
the committed offset. -/
def resolveInitialOffset (committedOffset initialPolicy : Int) : Int :=
  if committedOffset < 0 then initialPolicy else committedOffset + 1

/-- Outcome of waitForProcessing: skipped because nothing was ever
consumed, skipped because everything consumed is already processed,
unblocked by the processingDone signal, or timed out. -/
inductive DrainOutcome
  | skippedNoConsumed
  | skippedProcessed
  | signalled
  | timedOut
deriving DecidableEq, Repr

/-- waitForProcessing (lines 124-143). Inputs: the freshly re-read last
processed (committed) offset, the atomically loaded lastConsumedOffset,
the time at which the processingDone channel closes (none if never), and
the MaxProcessingTime configuration value. Returns the outcome and the
time spent blocked in the select. -/
def waitForProcessing (lastProcessedOffset lastConsumedOffset : Int)
    (ackArrival : Option Nat) (maxProcessingTime : Nat) : DrainOutcome × Nat :=
  if 0 ≤ lastConsumedOffset then
    if lastProcessedOffset < lastConsumedOffset then
      match ackArrival with
      | some t => if t < maxProcessingTime then (.signalled, t) else (.timedOut, maxProcessingTime)
      | none => (.timedOut, maxProcessingTime)
    else (.skippedProcessed, 0)
  else (.skippedNoConsumed, 0)

/-- State of one partitionManager visible to ack: whether run has bound
the offsetManager field (line 44), whether the tomb is dying
(t.Err() differs from tomb.ErrStillAlive), the atomically written
lastConsumedOffset, whether the processingDone channel has been closed,
and the offsets persisted so far via SetOffset (most recent first). -/
structure PMState where
  offsetManagerBound : Bool
  tombDying : Bool
  lastConsumedOffset : Int
  processingDoneClosed : Bool
  persistedOffsets : List Int
deriving DecidableEq, Repr

/-- Runtime panics ack can hit: calling SetOffset on the nil offsetManager
interface before run bound it, and closing the already-closed
processingDone channel. -/
inductive AckPanic
  | nilOffsetManager
  | closeOfClosedChannel
deriving DecidableEq, Repr

/-- ack (lines 158-164): persist the offset through the offset manager,
then, if the tomb is dying and the offset equals the current
lastConsumedOffset, close the processingDone channel. The returned state
reflects every effect performed before a panic, and the second component
is the panic if one occurs. -/
def ack (s : PMState) (offset : Int) : PMState × Option AckPanic :=
  if s.offsetManagerBound = false then (s, some .nilOffsetManager)
  else
    let s1 : PMState := { s with persistedOffsets := offset :: s.persistedOffsets }
    if s.tombDying = true ∧ offset = s.lastConsumedOffset then
      if s1.processingDoneClosed then (s1, some .closeOfClosedChannel)
      else ({ s1 with processingDoneClosed := true }, none)
    else (s1, none)

/-- One iteration of the claimPartition loop, as seen from the manager:
the WatchPartitionOwner call either fails (then the manager selects
between a 1-second sleep and the dying channel), reports an owner (then,
when the owner is another instance, the manager selects between the
changed watch and the dying channel), or reports no owner (then the
atomic ClaimPartition attempt either succeeds or fails). The boolean
records whether the dying channel wins the select at that wait point. -/
inductive OwnerRead
  | readError (dyingDuringWait : Bool)
  | ownedBy (instanceId : Nat) (dyingDuringWait : Bool)
  | unowned (claimSucceeds : Bool)
deriving DecidableEq, Repr

/-- claimPartition (lines 172-212), run against a finite schedule of loop
iterations. Returns none when the schedule is exhausted with the loop
still retrying, some (ok) on a successful claim, and some (error e) when
the function returns an error: tomb.ErrDying from a select, or the fatal
invariant-violation error when the read owner is this instance. -/
def claimPartition (selfId : Nat) : List OwnerRead → Option (Except PMError Unit)
  | [] => none
  | .readError dying :: rest =>
      if dying then some (.error .errDying) else claimPartition selfId rest
  | .ownedBy ownerId dying :: rest =>
      if ownerId = selfId then some (.error .ownAlreadyOwner)
      else if dying then some (.error .errDying) else claimPartition selfId rest
  | .unowned claimOk :: rest =>
      if claimOk then some (.ok ()) else claimPartition selfId rest

/-- One attempt of the startPartitionOffsetManager loop: ManagePartition
either succeeds or fails with some error, in which case the manager
selects between the dying channel and a 1-second sleep. -/
inductive OMStartStep
  | succeeds
  | fails (code : Nat) (dyingDuringWait : Bool)
deriving DecidableEq, Repr

/-- startPartitionOffsetManager (lines 102-118), run against a finite
schedule of attempts. The first component counts the 1-second sleeps
taken; the second is none when the schedule is exhausted with the loop
still retrying, some (ok) on success, and some (error e) when the
function returns an error. -/
def startPartitionOffsetManager : List OMStartStep → Nat × Option (Except PMError Unit)
  | [] => (0, none)
  | .succeeds :: _ => (0, some (.ok ()))
  | .fails _ true :: _ => (0, some (.error .errDying))
  | .fails _ false :: rest =>
      let r := startPartitionOffsetManager rest
      (r.1 + 1, r.2)

/-- Predicate: this attempt fails and the 1-second sleep wins the select,
so the startPartitionOffsetManager loop retries after sleeping. -/
def isRetriedFailure : OMStartStep → Bool
  | .fails _ false => true
  | _ => false

/-- Reply of one ConsumePartition attempt, as a function of the requested
offset: the consumer starts, or sarama.ErrOffsetOutOfRange is returned,
or some other error is returned (in which case the manager selects
between the dying channel and a 1-second sleep). -/
inductive ConsumeReply
  | started
  | offsetOutOfRange
  | otherError (code : Nat) (dyingDuringWait : Bool)
deriving DecidableEq, Repr

/-- Observable events of the startPartitionConsumer loop: replacing the
requested offset by the configured initial offset policy after an
out-of-range reply, and sleeping 1 second after any other error. -/
inductive SCEvent
  | fallbackToInitial
  | sleepOneSecond
deriving DecidableEq, Repr

/-- startPartitionConsumer (lines 218-265), run against a finite schedule
of broker replies (each a function of the offset requested on that
attempt). Returns the trace of events together with: none when the
schedule is exhausted with the loop still retrying, some (ok offset) when
the consumer starts at that offset, and some (error e) when the function
returns an error. On offsetOutOfRange the loop continues immediately at
the configured initial policy offset, with no sleep and no dying check;
on any other error it sleeps 1 second (or returns tomb.ErrDying) and
retries at the same offset. -/
def startPartitionConsumer (initialPolicy : Int) :
    List (Int → ConsumeReply) → Int → List SCEvent × Option (Except PMError Int)
  | [], _ => ([], none)
  | reply :: rest, offset =>
    match reply offset with
    | .started => ([], some (.ok offset))
    | .offsetOutOfRange =>
        let r := startPartitionConsumer initialPolicy rest initialPolicy
        (.fallbackToInitial :: r.1, r.2)
    | .otherError _ true => ([], some (.error .errDying))
    | .otherError _ false =>
        let r := startPartitionConsumer initialPolicy rest offset
        (.sleepOneSecond :: r.1, r.2)

/-- Check that no scheduled broker reply answers offsetOutOfRange when
asked for the configured initial policy offset (i.e. the policy offset
itself is always in range at the broker). -/
def safeAtInitial (initialPolicy : Int) (replies : List (Int → ConsumeReply)) : Bool :=
  replies.all fun reply => decide (reply initialPolicy ≠ ConsumeReply.offsetOutOfRange)

/-- Broker whose log no longer contains the given expired offset: a
consume request at exactly that offset answers offsetOutOfRange, and any
other requested offset starts the consumer. -/
def replyBadAt (expired : Int) : Int → ConsumeReply :=
  fun offset => if offset = expired then ConsumeReply.offsetOutOfRange else ConsumeReply.started

/-- One iteration of the steady-state consume loop in run (lines 65-95):
the outer select picks the dying channel (exit), a message from the
partition consumer (forwarded unless the dying channel wins the inner
select first), or an error from the offset manager or from the partition
consumer (same inner-select discipline). -/
inductive LoopEvent
  | dying
  | message (offset : Int) (dyingDuringForward : Bool)
  | offsetManagerError (dyingDuringForward : Bool)
  | consumerError (dyingDuringForward : Bool)
deriving DecidableEq, Repr

/-- Modelled from the spec: the consumer manager that constructs each
partitionManager lives in a source file that is not part of this
repository snapshot; per the spec it initializes lastConsumedOffset to a
negative "none" sentinel (consistently with the nonnegativity test in
waitForProcessing, line 128). -/
def initialLastConsumedOffset : Int := -1

/-- Successive values of the lastConsumedOffset field over one execution
of the consume loop, starting from the given current value: the only
write is the atomic store of the forwarded message offset (line 73),
performed once per successfully forwarded message; loop exit stops the
trace. -/
def lastConsumedTrace (last : Int) : List LoopEvent → List Int
  | [] => [last]
  | .dying :: _ => [last]
  | .message off false :: rest => last :: lastConsumedTrace off rest
  | .message _ true :: _ => [last]
  | .offsetManagerError false :: rest => last :: lastConsumedTrace last rest
  | .offsetManagerError true :: _ => [last]
  | .consumerError false :: rest => last :: lastConsumedTrace last rest
  | .consumerError true :: _ => [last]

/-- Number of atomic stores to lastConsumedOffset executed by the consume
loop on this schedule (one per successfully forwarded message). -/
def storeCount : List LoopEvent → Nat
  | [] => 0
  | .dying :: _ => 0
  | .message _ false :: rest => storeCount rest + 1
  | .message _ true :: _ => 0
  | .offsetManagerError false :: rest => storeCount rest
  | .offsetManagerError true :: _ => 0
  | .consumerError false :: rest => storeCount rest
  | .consumerError true :: _ => 0

/-- Offsets of the messages the loop successfully forwards to the parent
manager, in order, on this schedule. -/
def forwardedOffsets : List LoopEvent → List Int
  | [] => []
  | .dying :: _ => []
  | .message off false :: rest => off :: forwardedOffsets rest
  | .message _ true :: _ => []
  | .offsetManagerError false :: rest => forwardedOffsets rest
  | .offsetManagerError true :: _ => []
  | .consumerError false :: rest => forwardedOffsets rest
  | .consumerError true :: _ => []

/-- Check that the per-partition offsets delivered by the consumer handle
are nonnegative and non-decreasing, starting from the given value (real
partition offsets are nonnegative and per-partition delivery order is
non-decreasing). -/
def offsetsDeliveredMonotone (last : Int) : List LoopEvent → Bool
  | [] => true
  | .message off _ :: rest => (decide (last ≤ off) && decide (0 ≤ off)) && offsetsDeliveredMonotone off rest
  | .dying :: rest => offsetsDeliveredMonotone last rest
  | .offsetManagerError _ :: rest => offsetsDeliveredMonotone last rest
  | .consumerError _ :: rest => offsetsDeliveredMonotone last rest

/-- Outcome of the claimPartition phase of run, as established for the
claimPartition model: a successful claim, tomb.ErrDying, or the fatal
invariant-violation error. -/
inductive ClaimOutcome
  | claimed
  | interrupted
  | fatalOwnSelf
deriving DecidableEq, Repr

/-- Outcome of a startup helper phase of run, as established for the
startPartitionOffsetManager and startPartitionConsumer models: success or
tomb.ErrDying. -/
inductive StartOutcome
  | started
  | interrupted
deriving DecidableEq, Repr

/-- Resolution of every branch point of one execution of run: how the
claim phase, the offset-manager startup and the consumer startup end.
The steady-state consume loop acquires and releases nothing and exits
only through the dying signal, so its events do not appear here. -/
structure RunEnv where
  claimOutcome : ClaimOutcome
  offsetManagerOutcome : StartOutcome
  consumerOutcome : StartOutcome
deriving DecidableEq, Repr

/-- Cleanup-relevant events of run, in execution order: closing the
partition consumer, the waitForProcessing drain, closing the offset
manager, releasing the partition claim in Zookeeper, and the final
tomb Done. -/
inductive RunEvent
  | closeConsumer
  | drainWait
  | closeOffsetManager
  | releaseClaim
  | tombDone
deriving DecidableEq, Repr

/-- Trace of cleanup events of run (lines 30-96) for a given resolution
of its branch points. run defers t.Done first; a failed claim returns at
once. A successful claim defers releasePartition; a successful
offset-manager start defers offsetManager.Close; waitForProcessing is
deferred after offset resolution; a successful consumer start defers
closePartitionConsumer. Go runs deferred calls in last-in-first-out
order, which yields the traces below. -/
def runTrace (e : RunEnv) : List RunEvent :=
  match e.claimOutcome with
  | .interrupted => [.tombDone]
  | .fatalOwnSelf => [.tombDone]
  | .claimed =>
    match e.offsetManagerOutcome with
    | .interrupted => [.releaseClaim, .tombDone]
    | .started =>
      match e.consumerOutcome with
      | .interrupted => [.drainWait, .closeOffsetManager, .releaseClaim, .tombDone]
      | .started => [.closeConsumer, .drainWait, .closeOffsetManager, .releaseClaim, .tombDone]

/-- The claim phase acquired the Zookeeper claim. -/
def claimAcquired (e : RunEnv) : Bool :=
  decide (e.claimOutcome = .claimed)

/-- The offset-manager handle was successfully opened (requires the claim
phase to have succeeded first). -/
def offsetManagerAcquired (e : RunEnv) : Bool :=
  claimAcquired e && decide (e.offsetManagerOutcome = .started)

/-- The partition consumer handle was successfully opened (requires both
earlier phases to have succeeded). -/
def consumerAcquired (e : RunEnv) : Bool :=
  offsetManagerAcquired e && decide (e.consumerOutcome = .started)

/-- C5: at startup, a negative (sentinel) committed offset resolves the
starting offset to the configured initial-offset policy, and an existing
committed offset k resolves it to k + 1. -/
theorem resolveInitialOffset_policy_or_committed_plus_one :
    ∀ committedOffset initialPolicy : Int,
      (committedOffset < 0 →
        resolveInitialOffset committedOffset initialPolicy = initialPolicy) ∧
      (0 ≤ committedOffset →
        resolveInitialOffset committedOffset initialPolicy = committedOffset + 1) := by
  intro c p
  constructor
  · intro h
    simp [resolveInitialOffset, h]
  · intro h
    simp [resolveInitialOffset, not_lt.mpr h]

theorem resolveInitialOffset_policy_or_committed_plus_one_witness :
    ((0 : Int) ≤ 41 ∧ resolveInitialOffset 41 OffsetNewest = 42) ∧
    ((-1 : Int) < 0 ∧ resolveInitialOffset (-1) OffsetOldest = OffsetOldest) := by
  refine ⟨⟨by decide, ?_⟩, ⟨by decide, ?_⟩⟩
  · have h := (resolveInitialOffset_policy_or_committed_plus_one 41 OffsetNewest).2 (by decide)
    rw [h]
    decide
  · exact (resolveInitialOffset_policy_or_committed_plus_one (-1) OffsetOldest).1 (by decide)

/-- C4: at drain time the blocked duration never exceeds
MaxProcessingTime; a negative (sentinel) last consumed offset skips the
drain entirely; a last consumed offset at or below the re-read last
processed offset skips the wait; and when the acknowledgement never
arrives the drain times out after exactly MaxProcessingTime. -/
theorem waitForProcessing_drain_bounds :
    ∀ (lastProcessedOffset lastConsumedOffset : Int) (ackArrival : Option Nat)
      (maxProcessingTime : Nat),
      (waitForProcessing lastProcessedOffset lastConsumedOffset ackArrival
          maxProcessingTime).2 ≤ maxProcessingTime ∧
      (lastConsumedOffset < 0 →
        waitForProcessing lastProcessedOffset lastConsumedOffset ackArrival maxProcessingTime =
          (DrainOutcome.skippedNoConsumed, 0)) ∧
      (0 ≤ lastConsumedOffset → lastConsumedOffset ≤ lastProcessedOffset →
        waitForProcessing lastProcessedOffset lastConsumedOffset ackArrival maxProcessingTime =
          (DrainOutcome.skippedProcessed, 0)) ∧
      (0 ≤ lastConsumedOffset → lastProcessedOffset < lastConsumedOffset → ackArrival = none →
        waitForProcessing lastProcessedOffset lastConsumedOffset ackArrival maxProcessingTime =
          (DrainOutcome.timedOut, maxProcessingTime)) := by
  intro p c a m
  refine ⟨?_, ?_, ?_, ?_⟩
  · by_cases h1 : 0 ≤ c
    · by_cases h2 : p < c
      · cases a with
        | none => simp [waitForProcessing, h1, h2]
        | some t =>
            by_cases h3 : t < m
            · simp [waitForProcessing, h1, h2, h3]
              omega
            · simp [waitForProcessing, h1, h2, h3]
      · simp [waitForProcessing, h1, h2]
    · simp [waitForProcessing, h1]
  · intro h
    simp [waitForProcessing, not_le.mpr h]
  · intro h1 h2
    simp [waitForProcessing, h1, not_lt.mpr h2]
  · intro h1 h2 h3
    subst h3
    simp [waitForProcessing, h1, h2]

theorem waitForProcessing_drain_bounds_witness :
    ((-1 : Int) < 0 ∧
      waitForProcessing 10 (-1) none 5 = (DrainOutcome.skippedNoConsumed, 0)) ∧
    ((0 : Int) ≤ 7 ∧ (7 : Int) ≤ 10 ∧
      waitForProcessing 10 7 none 5 = (DrainOutcome.skippedProcessed, 0)) ∧
    ((0 : Int) ≤ 12 ∧ (10 : Int) < 12 ∧ (none : Option Nat) = none ∧
      waitForProcessing 10 12 none 5 = (DrainOutcome.timedOut, 5)) := by
  refine ⟨⟨by decide, ?_⟩, ⟨by decide, by decide, ?_⟩, ⟨by decide, by decide, rfl, ?_⟩⟩
  · exact (waitForProcessing_drain_bounds 10 (-1) none 5).2.1 (by decide)
  · exact (waitForProcessing_drain_bounds 10 7 none 5).2.2.1 (by decide) (by decide)
  · exact (waitForProcessing_drain_bounds 10 12 none 5).2.2.2 (by decide) (by decide) rfl

/-- C10: calling ack before run has bound the offset-manager handle
dereferences the nil offsetManager interface (a runtime panic) and
performs no other effect; once the handle is bound, that panic can never
occur. -/
theorem ack_nil_before_offset_manager_bound :
    ∀ (s : PMState) (offset : Int),
      (s.offsetManagerBound = false →
        ack s offset = (s, some AckPanic.nilOffsetManager)) ∧
      (s.offsetManagerBound = true →
        (ack s offset).2 ≠ some AckPanic.nilOffsetManager) := by
  intro s off
  constructor
  · intro h
    simp [ack, h]
  · intro h
    unfold ack
    simp [h]
    split
    · split <;> simp
    · simp

theorem ack_nil_before_offset_manager_bound_witness :
    (PMState.mk false false (-1) false []).offsetManagerBound = false ∧
    ack (PMState.mk false false (-1) false []) 5 =
      (PMState.mk false false (-1) false [], some AckPanic.nilOffsetManager) :=
  ⟨rfl, (ack_nil_before_offset_manager_bound (PMState.mk false false (-1) false []) 5).1 rfl⟩

/-- C2 (failing input): with the manager shutting down and
lastConsumedOffset equal to 42, the first ack of offset 42 persists the
offset and closes the processingDone channel; a second ack of the same
offset persists again and then attempts to close the already-closed
channel, which is a runtime panic in Go rather than a no-op. -/
theorem ack_second_final_ack_double_close :
    (ack (PMState.mk true true 42 false []) 42).2 = none ∧
    (ack (PMState.mk true true 42 false []) 42).1.processingDoneClosed = true ∧
    (ack ((ack (PMState.mk true true 42 false []) 42).1) 42).2 =
      some AckPanic.closeOfClosedChannel ∧
    (ack ((ack (PMState.mk true true 42 false []) 42).1) 42).1.persistedOffsets =
      [42, 42] := by
  refine ⟨by decide, by decide, by decide, by decide⟩

/-- C1: for every resolution of the branch points of run, each of the
three resources (the Zookeeper claim, the offset-manager handle, the
partition-consumer handle) is released or closed exactly once when its
acquisition succeeded and never otherwise. -/
theorem runTrace_release_iff_acquired :
    ∀ e : RunEnv,
      (runTrace e).count RunEvent.releaseClaim = (if claimAcquired e then 1 else 0) ∧
      (runTrace e).count RunEvent.closeOffsetManager =
        (if offsetManagerAcquired e then 1 else 0) ∧
      (runTrace e).count RunEvent.closeConsumer = (if consumerAcquired e then 1 else 0) := by
  intro e
  obtain ⟨c, o, k⟩ := e
  cases c <;> cases o <;> cases k <;> decide

/-- C9 (counterexample): on the normal shutdown path (all three phases
succeeded), run closes the partition-consumer handle before the drain
wait, because the deferred closePartitionConsumer was registered last and
Go runs deferred calls in last-in-first-out order; so the drain does not
precede every releasing action. -/
theorem runTrace_close_consumer_before_drain :
    RunEvent.closeConsumer ∈
      runTrace (RunEnv.mk ClaimOutcome.claimed StartOutcome.started StartOutcome.started) ∧
    RunEvent.drainWait ∈
      runTrace (RunEnv.mk ClaimOutcome.claimed StartOutcome.started StartOutcome.started) ∧
    (runTrace (RunEnv.mk ClaimOutcome.claimed StartOutcome.started
        StartOutcome.started)).indexOf RunEvent.closeConsumer <
      (runTrace (RunEnv.mk ClaimOutcome.claimed StartOutcome.started
        StartOutcome.started)).indexOf RunEvent.drainWait := by
  decide

/-- C9 (amended): on every path, the cleanup events of run occur in the
fixed order: close the consumer handle, then the drain wait, then close
the offset-manager handle, then release the claim, then the final tomb
Done; the tomb Done is always last, the drain wait occurs exactly when
the offset-manager phase succeeded, and the consumer close occurs exactly
when the consumer phase succeeded. -/
theorem runTrace_cleanup_order :
    ∀ e : RunEnv,
      List.Sublist (runTrace e)
        [RunEvent.closeConsumer, RunEvent.drainWait, RunEvent.closeOffsetManager,
          RunEvent.releaseClaim, RunEvent.tombDone] ∧
      (runTrace e).getLast? = some RunEvent.tombDone ∧
      ((RunEvent.drainWait ∈ runTrace e) ↔ offsetManagerAcquired e = true) ∧
      ((RunEvent.closeConsumer ∈ runTrace e) ↔ consumerAcquired e = true) := by
  intro e
  obtain ⟨c, o, k⟩ := e
  cases c <;> cases o <;> cases k <;> exact ⟨by decide, by decide, by decide, by decide⟩

theorem claimPartition_append_of_none (selfId : Nat) (l1 l2 : List OwnerRead)
    (h : claimPartition selfId l1 = none) :
    claimPartition selfId (l1 ++ l2) = claimPartition selfId l2 := by
  induction l1 with
  | nil => rfl
  | cons r rest ih =>
      cases r with
      | readError dying =>
          cases dying
          · simp only [claimPartition, Bool.false_eq_true, if_false, List.cons_append] at h ⊢
            exact ih h
          · simp [claimPartition] at h
      | ownedBy ownerId dying =>
          by_cases ho : ownerId = selfId
          · simp [claimPartition, ho] at h
          · cases dying
            · simp only [claimPartition, ho, Bool.false_eq_true, if_false, if_neg,
                List.cons_append] at h ⊢
              exact ih h
            · simp [claimPartition, ho] at h
      | unowned claimOk =>
          cases claimOk
          · simp only [claimPartition, Bool.false_eq_true, if_false, List.cons_append] at h ⊢
            exact ih h
          · simp [claimPartition] at h

theorem startPartitionOffsetManager_error_eq_dying (steps : List OMStartStep) :
    ∀ e : PMError, (startPartitionOffsetManager steps).2 = some (Except.error e) →
      e = PMError.errDying := by
  induction steps with
  | nil => intro e h; simp [startPartitionOffsetManager] at h
  | cons s rest ih =>
      intro e h
      cases s with
      | succeeds => simp [startPartitionOffsetManager] at h
      | fails code dying =>
          cases dying
          · simp only [startPartitionOffsetManager] at h
            exact ih e h
          · simp [startPartitionOffsetManager] at h
            exact h.symm

theorem startPartitionOffsetManager_sleeps (steps : List OMStartStep) :
    (startPartitionOffsetManager steps).1 = (steps.takeWhile isRetriedFailure).length := by
  induction steps with
  | nil => rfl
  | cons s rest ih =>
      cases s with
      | succeeds => rfl
      | fails code dying =>
          cases dying
          · simp only [startPartitionOffsetManager, List.takeWhile_cons, isRetriedFailure,
              if_true, List.length_cons]
            omega
          · rfl

theorem startPartitionConsumer_error_eq_dying (initialPolicy : Int)
    (replies : List (Int → ConsumeReply)) :
    ∀ (offset : Int) (e : PMError),
      (startPartitionConsumer initialPolicy replies offset).2 = some (Except.error e) →
      e = PMError.errDying := by
  induction replies with
  | nil => intro off e h; simp [startPartitionConsumer] at h
  | cons reply rest ih =>
      intro off e h
      cases hr : reply off with
      | started => simp [startPartitionConsumer, hr] at h
      | offsetOutOfRange =>
          simp only [startPartitionConsumer, hr] at h
          exact ih initialPolicy e h
      | otherError code dying =>
          cases dying
          · simp only [startPartitionConsumer, hr] at h
            exact ih off e h
          · simp [startPartitionConsumer, hr] at h
            exact h.symm

/-- C6: both startup helpers return either success or the distinguished
interrupted outcome tomb.ErrDying and never any other error value; every
retried offset-manager failure costs exactly one 1-second sleep, and a
retriable consumer error sleeps 1 second and retries at the same offset. -/
theorem startup_helpers_return_only_interrupted :
    ∀ (steps : List OMStartStep) (initialPolicy : Int)
      (replies : List (Int → ConsumeReply)) (offset : Int) (e1 e2 : PMError),
      ((startPartitionOffsetManager steps).2 = some (Except.error e1) →
        e1 = PMError.errDying) ∧
      ((startPartitionConsumer initialPolicy replies offset).2 = some (Except.error e2) →
        e2 = PMError.errDying) ∧
      (startPartitionOffsetManager steps).1 = (steps.takeWhile isRetriedFailure).length ∧
      (∀ (reply : Int → ConsumeReply) (rest : List (Int → ConsumeReply)) (code : Nat),
        reply offset = ConsumeReply.otherError code false →
        startPartitionConsumer initialPolicy (reply :: rest) offset =
          (SCEvent.sleepOneSecond :: (startPartitionConsumer initialPolicy rest offset).1,
            (startPartitionConsumer initialPolicy rest offset).2)) := by
  intro steps policy replies off e1 e2
  refine ⟨startPartitionOffsetManager_error_eq_dying steps e1,
    startPartitionConsumer_error_eq_dying policy replies off e2,
    startPartitionOffsetManager_sleeps steps, ?_⟩
  intro reply rest code h
  simp [startPartitionConsumer, h]

theorem startup_helpers_return_only_interrupted_witness :
    ((startPartitionOffsetManager [OMStartStep.fails 5 true]).2 =
        some (Except.error PMError.errDying)) ∧
    ((startPartitionConsumer (-1) [fun _ => ConsumeReply.otherError 7 true] 0).2 =
        some (Except.error PMError.errDying)) ∧
    PMError.errDying = PMError.errDying ∧
    (PMError.errDying = PMError.errDying ∨ True) := by
  refine ⟨rfl, rfl, ?_, Or.inl ?_⟩
  · exact (startup_helpers_return_only_interrupted [OMStartStep.fails 5 true] (-1)
      [fun _ => ConsumeReply.otherError 7 true] 0 PMError.errDying PMError.errDying).1 rfl
  · exact (startup_helpers_return_only_interrupted [OMStartStep.fails 5 true] (-1)
      [fun _ => ConsumeReply.otherError 7 true] 0 PMError.errDying PMError.errDying).2.1 rfl

/-- C7: claimPartition returns the fatal invariant-violation error
immediately, without any retry, whenever the ownership read reports this
instance itself as owner; every error it returns is either tomb.ErrDying
or that fatal error; and the fatal error is returned exactly when the
loop, still running, reaches a read reporting this instance as owner. -/
theorem claimPartition_fatal_iff_owner_self :
    ∀ (selfId : Nat) (reads : List OwnerRead),
      (∀ (dying : Bool) (rest : List OwnerRead),
        claimPartition selfId (OwnerRead.ownedBy selfId dying :: rest) =
          some (Except.error PMError.ownAlreadyOwner)) ∧
      (∀ e : PMError, claimPartition selfId reads = some (Except.error e) →
        e = PMError.errDying ∨ e = PMError.ownAlreadyOwner) ∧
      (claimPartition selfId reads = some (Except.error PMError.ownAlreadyOwner) ↔
        ∃ (pre : List OwnerRead) (dying : Bool) (rest : List OwnerRead),
          reads = pre ++ OwnerRead.ownedBy selfId dying :: rest ∧
          claimPartition selfId pre = none) := by
  intro selfId reads
  refine ⟨?_, ?_, ?_⟩
  · intro dying rest
    simp [claimPartition]
  · induction reads with
    | nil => intro e h; simp [claimPartition] at h
    | cons r rest ih =>
        intro e h
        cases r with
        | readError dying =>
            cases dying
            · simp only [claimPartition, Bool.false_eq_true, if_false] at h
              exact ih e h
            · simp [claimPartition] at h
              exact Or.inl h.symm
        | ownedBy ownerId dying =>
            by_cases ho : ownerId = selfId
            · simp [claimPartition, ho] at h
              exact Or.inr h.symm
            · cases dying
              · simp only [claimPartition, ho, if_neg, Bool.false_eq_true, if_false] at h
                exact ih e h
              · simp [claimPartition, ho] at h
                exact Or.inl h.symm
        | unowned claimOk =>
            cases claimOk
            · simp only [claimPartition, Bool.false_eq_true, if_false] at h
              exact ih e h
            · simp [claimPartition] at h
  · constructor
    · induction reads with
      | nil => intro h; simp [claimPartition] at h
      | cons r rest ih =>
          intro h
          cases r with
          | readError dying =>
              cases dying
              · simp only [claimPartition, Bool.false_eq_true, if_false] at h
                obtain ⟨pre, d, rst, heq, hnone⟩ := ih h
                refine ⟨OwnerRead.readError false :: pre, d, rst, ?_, ?_⟩
                · rw [heq, List.cons_append]
                · simp only [claimPartition, Bool.false_eq_true, if_false]
                  exact hnone
              · simp [claimPartition] at h
          | ownedBy ownerId dying =>
              by_cases ho : ownerId = selfId
              · subst ho
                exact ⟨[], dying, rest, rfl, rfl⟩
              · cases dying
                · simp only [claimPartition, ho, if_neg, Bool.false_eq_true, if_false] at h
                  obtain ⟨pre, d, rst, heq, hnone⟩ := ih h
                  refine ⟨OwnerRead.ownedBy ownerId false :: pre, d, rst, ?_, ?_⟩
                  · rw [heq, List.cons_append]
                  · simp only [claimPartition, ho, if_neg, Bool.false_eq_true, if_false]
                    exact hnone
                · simp [claimPartition, ho] at h
          | unowned claimOk =>
              cases claimOk
              · simp only [claimPartition, Bool.false_eq_true, if_false] at h
                obtain ⟨pre, d, rst, heq, hnone⟩ := ih h
                refine ⟨OwnerRead.unowned false :: pre, d, rst, ?_, ?_⟩
                · rw [heq, List.cons_append]
                · simp only [claimPartition, Bool.false_eq_true, if_false]
                  exact hnone
              · simp [claimPartition] at h
    · rintro ⟨pre, d, rst, rfl, hnone⟩
      rw [claimPartition_append_of_none selfId pre _ hnone]
      simp [claimPartition]

theorem claimPartition_fatal_iff_owner_self_witness :
    claimPartition 1 [OwnerRead.readError false, OwnerRead.ownedBy 1 true] =
      some (Except.error PMError.ownAlreadyOwner) := by
  exact (claimPartition_fatal_iff_owner_self 1
    [OwnerRead.readError false, OwnerRead.ownedBy 1 true]).2.2.mpr
    ⟨[OwnerRead.readError false], true, [], rfl, rfl⟩

/-- C3 (counterexample): three consecutive offsetOutOfRange replies
produce three fallbacks to the initial policy, not exactly one, with the
loop still running, no sleep taken and no dying check reached; the code
places no bound on how often this repeats. -/
theorem startPartitionConsumer_repeated_out_of_range :
    (startPartitionConsumer OffsetNewest
        [fun _ => ConsumeReply.offsetOutOfRange, fun _ => ConsumeReply.offsetOutOfRange,
          fun _ => ConsumeReply.offsetOutOfRange] 100).1 =
      [SCEvent.fallbackToInitial, SCEvent.fallbackToInitial, SCEvent.fallbackToInitial] ∧
    (startPartitionConsumer OffsetNewest
        [fun _ => ConsumeReply.offsetOutOfRange, fun _ => ConsumeReply.offsetOutOfRange,
          fun _ => ConsumeReply.offsetOutOfRange] 100).2 = none := by
  exact ⟨rfl, rfl⟩

theorem startPartitionConsumer_no_fallback_at_initial (initialPolicy : Int)
    (replies : List (Int → ConsumeReply))
    (hsafe : safeAtInitial initialPolicy replies = true) :
    (startPartitionConsumer initialPolicy replies initialPolicy).1.count
      SCEvent.fallbackToInitial = 0 := by
  induction replies with
  | nil => rfl
  | cons reply rest ih =>
      simp only [safeAtInitial, List.all_cons, Bool.and_eq_true, decide_eq_true_eq] at hsafe
      obtain ⟨h1, h2⟩ := hsafe
      cases hr : reply initialPolicy with
      | started => simp [startPartitionConsumer, hr]
      | offsetOutOfRange => exact absurd hr h1
      | otherError code dying =>
          cases dying
          · simp only [startPartitionConsumer, hr, List.count_cons]
            have := ih h2
            simp only [this]
            decide
          · simp [startPartitionConsumer, hr]

theorem startPartitionConsumer_fallback_le_one (initialPolicy : Int)
    (replies : List (Int → ConsumeReply)) :
    ∀ offset : Int, safeAtInitial initialPolicy replies = true →
      (startPartitionConsumer initialPolicy replies offset).1.count
        SCEvent.fallbackToInitial ≤ 1 := by
  induction replies with
  | nil =>
      intro off _
      simp [startPartitionConsumer]
  | cons reply rest ih =>
      intro off hsafe
      simp only [safeAtInitial, List.all_cons, Bool.and_eq_true, decide_eq_true_eq] at hsafe
      obtain ⟨h1, h2⟩ := hsafe
      cases hr : reply off with
      | started => simp [startPartitionConsumer, hr]
      | offsetOutOfRange =>
          simp only [startPartitionConsumer, hr, List.count_cons]
          have h0 := startPartitionConsumer_no_fallback_at_initial initialPolicy rest h2
          simp only [h0]
          decide
      | otherError code dying =>
          cases dying
          · simp only [startPartitionConsumer, hr, List.count_cons]
            have hbe : (SCEvent.sleepOneSecond == SCEvent.fallbackToInitial) = false := rfl
            simp only [hbe, Bool.false_eq_true, if_false]
            have := ih off h2
            omega
          · simp [startPartitionConsumer, hr]

/-- C3 (amended): an offsetOutOfRange reply replaces the requested offset
by the configured initial-offset policy and retries immediately, with no
sleep event and no dying check; and whenever the broker never answers
offsetOutOfRange for the policy offset itself, at most one fallback
occurs in the whole startup. Repeated offsetOutOfRange replies at the
policy offset, however, repeat the fallback unboundedly. -/
theorem startPartitionConsumer_single_fallback_when_policy_in_range :
    ∀ (initialPolicy : Int) (reply : Int → ConsumeReply)
      (rest replies : List (Int → ConsumeReply)) (offset : Int),
      (reply offset = ConsumeReply.offsetOutOfRange →
        startPartitionConsumer initialPolicy (reply :: rest) offset =
          (SCEvent.fallbackToInitial ::
              (startPartitionConsumer initialPolicy rest initialPolicy).1,
            (startPartitionConsumer initialPolicy rest initialPolicy).2)) ∧
      (safeAtInitial initialPolicy replies = true →
        (startPartitionConsumer initialPolicy replies offset).1.count
          SCEvent.fallbackToInitial ≤ 1) := by
  intro policy reply rest replies off
  constructor
  · intro h
    simp [startPartitionConsumer, h]
  · intro h
    exact startPartitionConsumer_fallback_le_one policy replies off h

theorem startPartitionConsumer_single_fallback_when_policy_in_range_witness :
    replyBadAt 100 100 = ConsumeReply.offsetOutOfRange ∧
    safeAtInitial (-1) [replyBadAt 100] = true ∧
    startPartitionConsumer (-1) [replyBadAt 100] 100 =
      (SCEvent.fallbackToInitial :: (startPartitionConsumer (-1) [] (-1)).1,
        (startPartitionConsumer (-1) [] (-1)).2) ∧
    (startPartitionConsumer (-1) [replyBadAt 100] 100).1.count
      SCEvent.fallbackToInitial ≤ 1 := by
  refine ⟨rfl, rfl, ?_, ?_⟩
  · exact (startPartitionConsumer_single_fallback_when_policy_in_range (-1) (replyBadAt 100)
      [] [replyBadAt 100] 100).1 rfl
  · exact (startPartitionConsumer_single_fallback_when_policy_in_range (-1) (replyBadAt 100)
      [] [replyBadAt 100] 100).2 rfl

theorem lastConsumedTrace_head (last : Int) (events : List LoopEvent) :
    (lastConsumedTrace last events).head? = some last := by
  cases events with
  | nil => rfl
  | cons e rest =>
      cases e with
      | dying => rfl
      | message off b => cases b <;> rfl
      | offsetManagerError b => cases b <;> rfl
      | consumerError b => cases b <;> rfl

theorem lastConsumedTrace_chain (events : List LoopEvent) :
    ∀ last : Int, offsetsDeliveredMonotone last events = true →
      List.Chain' (fun a b : Int => a ≤ b) (lastConsumedTrace last events) := by
  induction events with
  | nil =>
      intro last _
      simp [lastConsumedTrace]
  | cons e rest ih =>
      intro last h
      cases e with
      | dying => simp [lastConsumedTrace]
      | message off b =>
          simp only [offsetsDeliveredMonotone, Bool.and_eq_true, decide_eq_true_eq] at h
          obtain ⟨⟨h1, h2⟩, h3⟩ := h
          cases b
          · simp only [lastConsumedTrace]
            rw [List.chain'_cons']
            refine ⟨?_, ih off h3⟩
            intro y hy
            rw [lastConsumedTrace_head] at hy
            simp only [Option.mem_def, Option.some.injEq] at hy
            omega
          · simp [lastConsumedTrace]
      | offsetManagerError b =>
          simp only [offsetsDeliveredMonotone] at h
          cases b
          · simp only [lastConsumedTrace]
            rw [List.chain'_cons']
            refine ⟨?_, ih last h⟩
            intro y hy
            rw [lastConsumedTrace_head] at hy
            simp only [Option.mem_def, Option.some.injEq] at hy
            omega
          · simp [lastConsumedTrace]
      | consumerError b =>
          simp only [offsetsDeliveredMonotone] at h
          cases b
          · simp only [lastConsumedTrace]
            rw [List.chain'_cons']
            refine ⟨?_, ih last h⟩
            intro y hy
            rw [lastConsumedTrace_head] at hy
            simp only [Option.mem_def, Option.some.injEq] at hy
            omega
          · simp [lastConsumedTrace]

theorem storeCount_eq_forwarded_length (events : List LoopEvent) :
    storeCount events = (forwardedOffsets events).length := by
  induction events with
  | nil => rfl
  | cons e rest ih =>
      cases e with
      | dying => rfl
      | message off b => cases b <;> simp [storeCount, forwardedOffsets, ih]
      | offsetManagerError b => cases b <;> simp [storeCount, forwardedOffsets, ih]
      | consumerError b => cases b <;> simp [storeCount, forwardedOffsets, ih]

/-- C8: over any consume-loop schedule whose delivered per-partition
offsets are nonnegative and non-decreasing, the successive values of
lastConsumedOffset form a non-decreasing sequence that starts at the
negative sentinel, and the field is stored exactly once per successfully
forwarded message. -/
theorem lastConsumedOffset_monotone :
    ∀ events : List LoopEvent,
      offsetsDeliveredMonotone initialLastConsumedOffset events = true →
      List.Chain' (fun a b : Int => a ≤ b)
        (lastConsumedTrace initialLastConsumedOffset events) ∧
      (lastConsumedTrace initialLastConsumedOffset events).head? =
        some initialLastConsumedOffset ∧
      storeCount events = (forwardedOffsets events).length := by
  intro events h
  exact ⟨lastConsumedTrace_chain events initialLastConsumedOffset h,
    lastConsumedTrace_head initialLastConsumedOffset events,
    storeCount_eq_forwarded_length events⟩

theorem lastConsumedOffset_monotone_witness :
    offsetsDeliveredMonotone initialLastConsumedOffset
      [LoopEvent.message 3 false, LoopEvent.offsetManagerError false,
        LoopEvent.message 5 false, LoopEvent.dying] = true ∧
    List.Chain' (fun a b : Int => a ≤ b)
      (lastConsumedTrace initialLastConsumedOffset
        [LoopEvent.message 3 false, LoopEvent.offsetManagerError false,
          LoopEvent.message 5 false, LoopEvent.dying]) := by
  refine ⟨by decide, ?_⟩
  exact (lastConsumedOffset_monotone
    [LoopEvent.message 3 false, LoopEvent.offsetManagerError false,
      LoopEvent.message 5 false, LoopEvent.dying] (by decide)).1

end KafkaConsumer
